import Mathlib

/-!
Shallow embedding of the docling_testbed repository's chunking, ingestion and
query logic (src/pdf_to_rag.py, src/ingest_to_chromadb.py, src/query_chromadb.py,
src/chromadb_config.py), together with theorems settling the frozen claims.

Text is modelled as `List Char`; Python's negative-index and slice semantics
are modelled explicitly.  Python's `while` loop in `chunk_text` is modelled
with explicit fuel (the loop need not terminate); an `Except Unit` layer models
a possible `IndexError`.
-/

deriving instance DecidableEq for Except

namespace DoclingRag

/-- Python `str.strip()` whitespace test (ASCII whitespace as in CPython). -/
def pyIsSpace (c : Char) : Bool :=
  c = ' ' || c = '\t' || c = '\n' || c = '\x0d' || c = '\x0b' || c = '\x0c'

/-- Python `s.strip()`: drop leading and trailing whitespace. -/
def pyStrip (s : List Char) : List Char :=
  ((s.dropWhile pyIsSpace).reverse.dropWhile pyIsSpace).reverse

/-- Python `s[i]` for `i : Int`: negative indices count from the end;
`none` models an `IndexError`. -/
def pyIdx (s : List Char) (i : Int) : Option Char :=
  if i < 0 then
    if 0 ≤ i + s.length then s.get? (i + s.length).toNat else none
  else s.get? i.toNat

/-- Normalization of one slice endpoint, as in Python `s[a:b]`. -/
def pyBound (len : Nat) (i : Int) : Nat :=
  if i < 0 then (i + len).toNat else min i.toNat len

/-- Python slice `s[a:b]` (step 1). -/
def pySlice (s : List Char) (a b : Int) : List Char :=
  (s.take (pyBound s.length b)).drop (pyBound s.length a)

/-- Python `range(a, b, -1)`: the descending integers `a, a-1, ..., b+1`. -/
def pyRangeDown (a b : Int) : List Int :=
  (List.range (a - b).toNat).map (fun k : Nat => a - (k : Int))

/-- `chunk_text`'s sentence-terminal test: `text[i] in '.!?\n'`. -/
def isSentenceEnd (c : Char) : Bool :=
  c = '.' || c = '!' || c = '?' || c = '\n'

/-- The backward scan of `chunk_text` (src/pdf_to_rag.py lines 52-57):
`for i in range(end, max(start + chunk_size - 100, start), -1)`, returning
`some (i+1)` for the first (largest) `i` whose character is sentence-terminal,
`none` if the window holds no such character, and an error on `IndexError`. -/
def findBoundaryGo (text : List Char) : List Int → Except Unit (Option Int)
  | [] => .ok none
  | i :: rest =>
    match pyIdx text i with
    | none => .error ()
    | some c => if isSentenceEnd c then .ok (some (i + 1)) else findBoundaryGo text rest

/-- The chunk boundary `end` computed by one iteration of `chunk_text`
(src/pdf_to_rag.py lines 49-57): `end = start + chunk_size`, snapped to `i + 1`
when the backward scan finds a sentence-terminal character at index `i`; the
scan only runs while `end < len(text)`. -/
def chunkEnd (text : List Char) (cs : Int) (start : Int) : Except Unit Int :=
  if start + cs < (text.length : Int) then
    (findBoundaryGo text (pyRangeDown (start + cs) (max (start + cs - 100) start))).map
      (fun o => o.getD (start + cs))
  else .ok (start + cs)

/-- One iteration of the `while` loop of `chunk_text` (src/pdf_to_rag.py
lines 48-60): emits `text[start:end].strip()` and moves the cursor to
`end - overlap`. -/
def chunkStep (text : List Char) (cs ov : Int) (start : Int) :
    Except Unit (List Char × Int) :=
  match chunkEnd text cs start with
  | .error _ => .error ()
  | .ok e => .ok (pyStrip (pySlice text start e), e - ov)

/-- The `while start < len(text)` loop of `chunk_text`, with explicit fuel:
`none` means the fuel ran out (the loop is still running). -/
def chunkLoop (text : List Char) (cs ov : Int) :
    Nat → Int → List (List Char) → Option (Except Unit (List (List Char)))
  | 0, start, acc =>
    if start < (text.length : Int) then none else some (.ok acc.reverse)
  | fuel + 1, start, acc =>
    if start < (text.length : Int) then
      match chunkStep text cs ov start with
      | .error _ => some (.error ())
      | .ok (chunk, start') => chunkLoop text cs ov fuel start' (chunk :: acc)
    else some (.ok acc.reverse)

/-- `chunk_text(text, chunk_size, overlap)` (src/pdf_to_rag.py lines 30-65),
run with fuel `length text + 1` (enough for every run whose cursor advances
by at least one character per iteration). -/
def chunk_text (text : List Char) (cs ov : Int) :
    Option (Except Unit (List (List Char))) :=
  if (text.length : Int) ≤ cs then some (.ok [text])
  else chunkLoop text cs ov (text.length + 1) 0 []

/-- The segmentation loop of `chunk_text` terminates on `text`:
either the short-text early return fires, or some finite fuel completes the loop. -/
def chunkTextTerminates (text : List Char) (cs ov : Int) : Prop :=
  (text.length : Int) ≤ cs ∨ ∃ fuel, (chunkLoop text cs ov fuel 0 []).isSome

/-! ## Configuration constants (src/chromadb_config.py) -/

/-- `ChromaDBConfig.BATCH_SIZE` (src/chromadb_config.py line 28). -/
def BATCH_SIZE : Nat := 100

/-- `ChromaDBConfig.DEFAULT_N_RESULTS` (src/chromadb_config.py line 32). -/
def DEFAULT_N_RESULTS : Int := 5

/-- `ChromaDBConfig.MAX_RESULTS` (src/chromadb_config.py line 33). -/
def MAX_RESULTS : Int := 50

/-- `ChromaDBConfig.TABLE_CONTENT_TYPES` (src/chromadb_config.py line 49). -/
def TABLE_CONTENT_TYPES : List String := ["table", "document_index"]

/-! ## Chunking pipeline (src/pdf_to_rag.py, `extract_rag_chunks`)

The Document Structuring Service (docling) is the external producer of items;
its output is modelled as a list of `ContentItem`s carrying the fields the
pipeline reads: the extracted text, the `label` (content type) and the page. -/

structure ContentItem where
  text : List Char
  label : String
  page : Option Int
deriving DecidableEq

structure ChunkRec where
  chunk_id : Nat
  text : List Char
  source : String
  content_type : String
  page : Option Int
  chunk_index : Nat
  total_chunks : Nat
  isPartial : Bool
deriving DecidableEq

/-- The records emitted by the `for i, text_chunk in enumerate(text_chunks)`
loop of `extract_rag_chunks` (src/pdf_to_rag.py lines 135-148). -/
def partialRecs (source ctype : String) (page : Option Int) (cid : Nat)
    (tcs : List (List Char)) : List ChunkRec :=
  tcs.enum.map (fun p =>
    { chunk_id := cid + p.1 + 1, text := p.2, source := source, content_type := ctype,
      page := page, chunk_index := p.1, total_chunks := tcs.length, isPartial := true })

/-- Processing of one `ContentItem` by `extract_rag_chunks`
(src/pdf_to_rag.py lines 117-163): whitespace-only items are discarded, a long
non-`'table'` item is segmented by `chunk_text`, anything else is kept whole.
Returns the emitted records and the updated `chunk_id` counter; the outer
`Option` propagates fuel exhaustion of `chunk_text`, the `Except` an
`IndexError`. -/
def processItem (cs ov : Int) (source : String) (cid : Nat) (item : ContentItem) :
    Option (Except Unit (List ChunkRec × Nat)) :=
  if item.text.isEmpty || (pyStrip item.text).isEmpty then some (.ok ([], cid))
  else if cs < (item.text.length : Int) && item.label != "table" then
    match chunk_text item.text cs ov with
    | none => none
    | some (.error _) => some (.error ())
    | some (.ok tcs) =>
      some (.ok (partialRecs source item.label item.page cid tcs, cid + tcs.length))
  else
    some (.ok ([{ chunk_id := cid + 1, text := pyStrip item.text, source := source,
                  content_type := item.label, page := item.page, chunk_index := 0,
                  total_chunks := 1, isPartial := false }], cid + 1))

/-- The item loop of `extract_rag_chunks` (src/pdf_to_rag.py lines 101-165),
threading the `chunk_id` counter through the items. -/
def extractLoop (cs ov : Int) (source : String) :
    List ContentItem → Nat → Option (Except Unit (List ChunkRec))
  | [], _ => some (.ok [])
  | item :: rest, cid =>
    match processItem cs ov source cid item with
    | none => none
    | some (.error _) => some (.error ())
    | some (.ok (recs, cid')) =>
      match extractLoop cs ov source rest cid' with
      | none => none
      | some (.error _) => some (.error ())
      | some (.ok more) => some (.ok (recs ++ more))

/-- `extract_rag_chunks` over a converted document's item sequence. -/
def extract_rag_chunks (items : List ContentItem) (cs ov : Int) (source : String) :
    Option (Except Unit (List ChunkRec)) :=
  extractLoop cs ov source items 0

/-- The number of chunk records a `processItem` run emitted, when it completed. -/
def recCount (r : Option (Except Unit (List ChunkRec × Nat))) : Option Nat :=
  match r with
  | some (.ok (recs, _)) => some recs.length
  | _ => none

/-! ## Ingestion (src/ingest_to_chromadb.py) -/

/-- A chunk as read back from the RAG JSON file (`chunk['metadata'][...]`). -/
structure RagChunk where
  chunk_id : Int
  text : String
  source : String
  content_type : String
  page : Option Int
  chunk_index : Int
  total_chunks : Int
  isPartial : Bool
deriving DecidableEq

/-- The flat metadata record `prepare_chunk_data` builds for one chunk
(src/ingest_to_chromadb.py lines 92-102). -/
structure IngestMeta where
  source : String
  content_type : String
  page : Int
  chunk_index : Int
  total_chunks : Int
  isPartial : Bool
  is_table : Bool
  char_count : Nat
deriving DecidableEq

/-- Python truthiness of an `Optional[Set[str]]`: `None` and the empty set are
falsy. -/
def pyTruthySet (o : Option (List String)) : Bool :=
  match o with
  | none => false
  | some l => !l.isEmpty

/-- `f"chunk_{chunk['chunk_id']}"` (src/ingest_to_chromadb.py line 86). -/
def mkChunkId (c : RagChunk) : String := "chunk_" ++ toString c.chunk_id

/-- The metadata dict of src/ingest_to_chromadb.py lines 92-102;
`chunk['metadata'].get('page', 0) or 0` maps a missing/`None` page to `0`. -/
def mkMeta (c : RagChunk) : IngestMeta :=
  { source := c.source, content_type := c.content_type, page := c.page.getD 0,
    chunk_index := c.chunk_index, total_chunks := c.total_chunks,
    isPartial := c.isPartial,
    is_table := TABLE_CONTENT_TYPES.contains c.content_type,
    char_count := c.text.length }

/-- `prepare_chunk_data(chunks, include_types, exclude_types)`
(src/ingest_to_chromadb.py lines 56-108): the two `continue` guards use Python
truthiness, so a falsy (absent or empty) filter set is skipped. -/
def prepare_chunk_data :
    List RagChunk → Option (List String) → Option (List String) →
      List String × List String × List IngestMeta
  | [], _, _ => ([], [], [])
  | c :: rest, inc, exc =>
    if pyTruthySet inc && !((inc.getD []).contains c.content_type) then
      prepare_chunk_data rest inc exc
    else if pyTruthySet exc && (exc.getD []).contains c.content_type then
      prepare_chunk_data rest inc exc
    else
      let r := prepare_chunk_data rest inc exc
      (mkChunkId c :: r.1, c.text :: r.2.1, mkMeta c :: r.2.2)

/-- The include-filter test as claim C10 words it: `include_types` is `None` or
the type is a member, with an empty include set selecting everything. -/
def incPass (inc : Option (List String)) (ct : String) : Bool :=
  match inc with
  | none => true
  | some l => l.isEmpty || l.contains ct

/-- The exclude-filter test as claim C10 words it: `exclude_types` is `None` or
the type is not a member. -/
def excPass (exc : Option (List String)) (ct : String) : Bool :=
  match exc with
  | none => true
  | some l => !l.contains ct

/-- The type-filter predicate exactly as claim C10 words it: a chunk is kept
iff it passes both the include and the exclude test. -/
def keepChunkClaim (inc exc : Option (List String)) (ct : String) : Bool :=
  incPass inc ct && excPass exc ct

/-- State observable from the batched-ingestion loop of `ingest_to_chromadb`
(src/ingest_to_chromadb.py lines 205-223): the documents added to the external
collection so far, the batch numbers whose failure was printed (line 221 logs
`i//BATCH_SIZE + 1`), and the start index of every `collection.add` attempt. -/
structure IngestState where
  collection : List (String × String)
  errorBatches : List Nat
  attempts : List Nat
deriving DecidableEq

/-- The `for i in range(0, len(documents), BATCH_SIZE)` loop of
`ingest_to_chromadb` (src/ingest_to_chromadb.py lines 206-223).  The external
Vector Index Service's per-batch outcome is the oracle `fails`; a failing
batch is logged and skipped, then the loop continues with the next batch. -/
def ingestLoop (pairs : List (String × String)) (bs : Nat) (fails : Nat → Bool)
    (i : Nat) (st : IngestState) : IngestState :=
  if h : i < pairs.length ∧ 0 < bs then
    ingestLoop pairs bs fails (i + bs)
      (if fails i then
        { st with attempts := st.attempts ++ [i],
                  errorBatches := st.errorBatches ++ [i / bs + 1] }
      else
        { st with attempts := st.attempts ++ [i],
                  collection := st.collection ++
                    (pairs.drop i).take (min (i + bs) pairs.length - i) })
  else st
termination_by pairs.length - i
decreasing_by omega

/-- The figure reported at the end of the run (src/ingest_to_chromadb.py line
226): `final_count = collection.count()` — the collection's document count. -/
def finalReport (st : IngestState) : Nat := st.collection.length

/-- The start indices `0, bs, 2*bs, ...` of the batches of `n` documents:
the values taken by `i` in `range(0, n, bs)`. -/
def batchStartsFrom (n bs : Nat) (i : Nat) : List Nat :=
  if h : i < n ∧ 0 < bs then i :: batchStartsFrom n bs (i + bs) else []
termination_by n - i
decreasing_by omega

/-! ## Query layer (src/query_chromadb.py) -/

/-- `ChromaDBQuerier.similarity_search` (src/query_chromadb.py lines 80-106):
the collection's `query` call is the external Vector Index Service, abstracted
as `service`; the requested result count is clamped to
`min(n_results, MAX_RESULTS)`. -/
def similarity_search {α : Type} (service : Int → List α) (n_results : Int) :
    List α :=
  service (min n_results MAX_RESULTS)

/-- The shapes of the `where` dict built by `ChromaDBQuerier.search_by_page_range`
(src/query_chromadb.py lines 165-177): the empty dict, `{"page": {"$gte": n}}`,
`{"page": {"$lte": n}}`, and `{"$and": [...]}`. -/
inductive WhereFilter where
  | empty : WhereFilter
  | pageGte : Int → WhereFilter
  | pageLte : Int → WhereFilter
  | andF : List WhereFilter → WhereFilter

/-- The filter built by `ChromaDBQuerier.search_by_page_range`
(src/query_chromadb.py lines 165-177), by cases over the optional bounds. -/
def search_by_page_range_filter : Option Int → Option Int → WhereFilter
  | some mn, some mx => .andF [.pageGte mn, .pageLte mx]
  | some mn, none => .pageGte mn
  | none, some mx => .pageLte mx
  | none, none => .empty

mutual

/-- Evaluation of a `where` filter by the external Vector Index Service on a
chunk whose `page` metadata is `p`.  Modelled from the spec's FilterPredicate
semantics (§3): inclusive comparisons, conjunction, empty filter matches all. -/
def matchesPage : WhereFilter → Int → Bool
  | .empty, _ => true
  | .pageGte n, p => decide (n ≤ p)
  | .pageLte n, p => decide (p ≤ n)
  | .andF l, p => matchesAll l p

/-- Conjunction over the members of a `$and` filter list. -/
def matchesAll : List WhereFilter → Int → Bool
  | [], _ => true
  | f :: fs, p => matchesPage f p && matchesAll fs p

end

/-! ## Helper lemmas on the Python primitives -/

lemma mem_pyRangeDown {a b i : Int} (h : i ∈ pyRangeDown a b) : b < i ∧ i ≤ a := by
  unfold pyRangeDown at h
  obtain ⟨k, hk, rfl⟩ := List.mem_map.mp h
  have hk2 : k < (a - b).toNat := List.mem_range.mp hk
  omega

lemma pyIdx_isSome {s : List Char} {i : Int} (h0 : 0 ≤ i) (hL : i < (s.length : Int)) :
    ∃ c, pyIdx s i = some c ∧ c ∈ s := by
  have hne : ¬ i < 0 := by omega
  have hlt : i.toNat < s.length := by omega
  refine ⟨s.get ⟨i.toNat, hlt⟩, ?_, List.get_mem _ _ _⟩
  simp only [pyIdx, hne, if_false]
  exact List.get?_eq_get hlt

lemma pyStrip_length_le (s : List Char) : (pyStrip s).length ≤ s.length := by
  simp only [pyStrip, List.length_reverse]
  calc ((s.dropWhile pyIsSpace).reverse.dropWhile pyIsSpace).length
      ≤ (s.dropWhile pyIsSpace).reverse.length := (List.dropWhile_sublist _).length_le
    _ = (s.dropWhile pyIsSpace).length := List.length_reverse _
    _ ≤ s.length := (List.dropWhile_sublist _).length_le

lemma dropWhile_eq_self_of_forall {p : Char → Bool} :
    ∀ {l : List Char}, (∀ c ∈ l, p c = false) → l.dropWhile p = l
  | [], _ => rfl
  | c :: l, h => by
    have hc : p c = false := h c (by simp)
    simp [List.dropWhile, hc]

lemma pyStrip_eq_self {l : List Char} (h : ∀ c ∈ l, pyIsSpace c = false) :
    pyStrip l = l := by
  simp only [pyStrip]
  rw [dropWhile_eq_self_of_forall h,
      dropWhile_eq_self_of_forall (fun c hc => h c (List.mem_reverse.mp hc)),
      List.reverse_reverse]

lemma pySlice_length_le (s : List Char) (a b : Int) (hab : a ≤ b) :
    ((pySlice s a b).length : Int) ≤ b - a := by
  simp only [pySlice, pyBound, List.length_drop, List.length_take]
  split_ifs <;> omega

lemma pySlice_ne_nil {s : List Char} {a b : Int} (h0 : 0 ≤ a)
    (hL : a < (s.length : Int)) (hab : a < b) : pySlice s a b ≠ [] := by
  have hpos : 0 < (pySlice s a b).length := by
    simp only [pySlice, pyBound, List.length_drop, List.length_take]
    split_ifs <;> omega
  exact List.ne_nil_of_length_pos hpos

lemma mem_of_mem_pySlice {s : List Char} {a b : Int} {c : Char}
    (h : c ∈ pySlice s a b) : c ∈ s :=
  List.mem_of_mem_take (List.mem_of_mem_drop h)

lemma mem_of_mem_pyStrip {l : List Char} {c : Char} (h : c ∈ pyStrip l) : c ∈ l := by
  simp only [pyStrip, List.mem_reverse] at h
  have h1 : c ∈ (l.dropWhile pyIsSpace).reverse := (List.dropWhile_sublist _).subset h
  exact (List.dropWhile_sublist _).subset (List.mem_reverse.mp h1)

/-! ## Helper lemmas on the boundary scan and loop of chunk_text -/

lemma findBoundaryGo_some {text : List Char} :
    ∀ {idxs : List Int} {e : Int}, findBoundaryGo text idxs = .ok (some e) →
      ∃ i ∈ idxs, e = i + 1 := by
  intro idxs
  induction idxs with
  | nil => intro e h; simp [findBoundaryGo] at h
  | cons i rest ih =>
    intro e h
    cases hidx : pyIdx text i with
    | none => simp [findBoundaryGo, hidx] at h
    | some c =>
      by_cases hse : isSentenceEnd c
      · simp only [findBoundaryGo, hidx, hse, if_true] at h
        exact ⟨i, by simp, by simpa using h.symm⟩
      · simp only [findBoundaryGo, hidx, hse, if_false] at h
        obtain ⟨j, hj, hje⟩ := ih h
        exact ⟨j, by simp [hj], hje⟩

lemma findBoundaryGo_ok {text : List Char} :
    ∀ {idxs : List Int}, (∀ i ∈ idxs, 0 ≤ i ∧ i < (text.length : Int)) →
      ∃ o, findBoundaryGo text idxs = .ok o := by
  intro idxs
  induction idxs with
  | nil => exact fun _ => ⟨none, rfl⟩
  | cons i rest ih =>
    intro h
    obtain ⟨c, hc, _⟩ := pyIdx_isSome (h i (by simp)).1 (h i (by simp)).2
    by_cases hse : isSentenceEnd c
    · exact ⟨some (i + 1), by simp [findBoundaryGo, hc, hse]⟩
    · obtain ⟨o, ho⟩ := ih (fun j hj => h j (by simp [hj]))
      exact ⟨o, by simp [findBoundaryGo, hc, hse, ho]⟩

lemma findBoundaryGo_no_punct {text : List Char}
    (hpunct : ∀ c ∈ text, isSentenceEnd c = false) :
    ∀ {idxs : List Int}, (∀ i ∈ idxs, 0 ≤ i ∧ i < (text.length : Int)) →
      findBoundaryGo text idxs = .ok none := by
  intro idxs
  induction idxs with
  | nil => exact fun _ => rfl
  | cons i rest ih =>
    intro h
    obtain ⟨c, hc, hmem⟩ := pyIdx_isSome (h i (by simp)).1 (h i (by simp)).2
    have hse : isSentenceEnd c = false := hpunct c hmem
    simp only [findBoundaryGo, hc, hse, if_false, Bool.false_eq_true]
    exact ih (fun j hj => h j (by simp [hj]))

lemma chunkEnd_ok (text : List Char) (cs start : Int) (h0 : 0 ≤ start) :
    ∃ e, chunkEnd text cs start = .ok e ∧ e ≤ start + cs + 1 ∧
      (e = start + cs ∨ max (start + cs - 100) start + 2 ≤ e) := by
  unfold chunkEnd
  by_cases hend : start + cs < (text.length : Int)
  · rw [if_pos hend]
    have hvalid : ∀ i ∈ pyRangeDown (start + cs) (max (start + cs - 100) start),
        0 ≤ i ∧ i < (text.length : Int) := by
      intro i hi
      have := mem_pyRangeDown hi
      omega
    obtain ⟨o, ho⟩ := findBoundaryGo_ok hvalid
    rw [ho]
    cases o with
    | none => exact ⟨start + cs, rfl, by omega, Or.inl rfl⟩
    | some e =>
      obtain ⟨i, hi, rfl⟩ := findBoundaryGo_some ho
      have hmem := mem_pyRangeDown hi
      exact ⟨i + 1, rfl, by omega, Or.inr (by omega)⟩
  · rw [if_neg hend]
    exact ⟨start + cs, rfl, by omega, Or.inl rfl⟩

lemma chunkEnd_bound {text : List Char} {cs start e : Int}
    (h : chunkEnd text cs start = .ok e) :
    e ≤ start + cs + 1 ∧ (e = start + cs ∨ start + 2 ≤ e) := by
  unfold chunkEnd at h
  by_cases hend : start + cs < (text.length : Int)
  · rw [if_pos hend] at h
    cases hfb : findBoundaryGo text (pyRangeDown (start + cs) (max (start + cs - 100) start)) with
    | error u => rw [hfb] at h; simp [Except.map] at h
    | ok o =>
      rw [hfb] at h
      cases o with
      | none =>
        simp only [Except.map, Option.getD] at h
        have he : e = start + cs := by injection h with h; omega
        exact ⟨by omega, Or.inl he⟩
      | some e2 =>
        obtain ⟨i, hi, rfl⟩ := findBoundaryGo_some hfb
        have hmem := mem_pyRangeDown hi
        simp only [Except.map, Option.getD] at h
        have he : e = i + 1 := by injection h with h; omega
        exact ⟨by omega, Or.inr (by omega)⟩
  · rw [if_neg hend] at h
    have he : e = start + cs := by injection h with h; omega
    exact ⟨by omega, Or.inl he⟩

lemma chunkStep_eq_ok {text : List Char} {cs start e : Int} (ov : Int)
    (h : chunkEnd text cs start = .ok e) :
    chunkStep text cs ov start = .ok (pyStrip (pySlice text start e), e - ov) := by
  simp [chunkStep, h]

lemma chunkStep_inv {text : List Char} {cs ov start : Int} {chunk : List Char} {s' : Int}
    (h : chunkStep text cs ov start = .ok (chunk, s')) :
    ∃ e, chunkEnd text cs start = .ok e ∧ chunk = pyStrip (pySlice text start e) ∧
      s' = e - ov := by
  unfold chunkStep at h
  cases hce : chunkEnd text cs start with
  | error u => rw [hce] at h; exact Except.noConfusion h
  | ok e =>
    rw [hce] at h
    refine ⟨e, rfl, ?_, ?_⟩
    · have := (Except.ok.injEq _ _).mp h
      exact (Prod.mk.injEq _ _ _ _ |>.mp this).1.symm
    · have := (Except.ok.injEq _ _).mp h
      exact (Prod.mk.injEq _ _ _ _ |>.mp this).2.symm

lemma chunkLoop_zero (text : List Char) (cs ov start : Int) (acc : List (List Char)) :
    chunkLoop text cs ov 0 start acc =
      if start < (text.length : Int) then none else some (.ok acc.reverse) := rfl

lemma chunkLoop_succ (text : List Char) (cs ov : Int) (fuel : Nat) (start : Int)
    (acc : List (List Char)) :
    chunkLoop text cs ov (fuel + 1) start acc =
      if start < (text.length : Int) then
        match chunkStep text cs ov start with
        | .error _ => some (.error ())
        | .ok (chunk, start') => chunkLoop text cs ov fuel start' (chunk :: acc)
      else some (.ok acc.reverse) := rfl

lemma chunkLoop_exit (text : List Char) (cs ov : Int) (fuel : Nat) (start : Int)
    (acc : List (List Char)) (h : ¬ start < (text.length : Int)) :
    chunkLoop text cs ov fuel start acc = some (.ok acc.reverse) := by
  cases fuel with
  | zero => rw [chunkLoop_zero, if_neg h]
  | succ n => rw [chunkLoop_succ, if_neg h]

lemma chunkLoop_advance (text : List Char) (cs ov : Int) (fuel : Nat) (start : Int)
    (acc : List (List Char)) {chunk : List Char} {s' : Int}
    (hlt : start < (text.length : Int))
    (hstep : chunkStep text cs ov start = .ok (chunk, s')) :
    chunkLoop text cs ov (fuel + 1) start acc =
      chunkLoop text cs ov fuel s' (chunk :: acc) := by
  rw [chunkLoop_succ, if_pos hlt, hstep]

lemma chunkLoop_ok_forall (text : List Char) (cs ov : Int) (P : List Char → Prop)
    (hcs : 0 < cs) (hov0 : 0 ≤ ov) (hovcs : ov < cs) (hgap : ov = 0 ∨ ov + 98 < cs)
    (hP : ∀ start e : Int, 0 ≤ start → start < (text.length : Int) →
      start < e → e ≤ start + cs + 1 → P (pyStrip (pySlice text start e))) :
    ∀ (fuel : Nat) (start : Int) (acc : List (List Char)), 0 ≤ start →
      (text.length : Int) ≤ start + fuel → (∀ c ∈ acc, P c) →
      ∃ chunks, chunkLoop text cs ov fuel start acc = some (.ok chunks) ∧
        ∀ c ∈ chunks, P c := by
  intro fuel
  induction fuel with
  | zero =>
    intro start acc h0 hfuel hacc
    rw [chunkLoop_zero, if_neg (by push_cast at hfuel ⊢; omega)]
    exact ⟨acc.reverse, rfl, fun c hc => hacc c (List.mem_reverse.mp hc)⟩
  | succ n ih =>
    intro start acc h0 hfuel hacc
    by_cases hlt : start < (text.length : Int)
    · obtain ⟨e, hce, hle, hcase⟩ := chunkEnd_ok text cs start h0
      have hstep := chunkStep_eq_ok ov hce
      rw [chunkLoop_advance text cs ov n start acc hlt hstep]
      have hprog : start + 1 ≤ e - ov := by
        rcases hcase with h | h <;> rcases hgap with h2 | h2 <;> omega
      refine ih (e - ov) _ (by omega) (by push_cast at hfuel ⊢; omega) ?_
      intro c hc
      rcases List.mem_cons.mp hc with rfl | hc
      · exact hP start e h0 hlt (by omega) (by omega)
      · exact hacc c hc
    · rw [chunkLoop_exit text cs ov _ start acc hlt]
      exact ⟨acc.reverse, rfl, fun c hc => hacc c (List.mem_reverse.mp hc)⟩

lemma chunkLoop_length_bound (text : List Char) (cs ov : Int) (hcs : 0 < cs) :
    ∀ (fuel : Nat) (start : Int) (acc chunks : List (List Char)),
      (∀ c ∈ acc, (c.length : Int) ≤ cs + 1) →
      chunkLoop text cs ov fuel start acc = some (.ok chunks) →
      ∀ ch ∈ chunks, (ch.length : Int) ≤ cs + 1 := by
  intro fuel
  induction fuel with
  | zero =>
    intro start acc chunks hacc h
    rw [chunkLoop_zero] at h
    by_cases hlt : start < (text.length : Int)
    · rw [if_pos hlt] at h
      exact Option.noConfusion h
    · rw [if_neg hlt] at h
      have heq : acc.reverse = chunks := by simpa using h
      intro ch hch
      rw [← heq] at hch
      exact hacc ch (List.mem_reverse.mp hch)
  | succ n ih =>
    intro start acc chunks hacc h
    by_cases hlt : start < (text.length : Int)
    · rw [chunkLoop_succ, if_pos hlt] at h
      cases hstep : chunkStep text cs ov start with
      | error u =>
        rw [hstep] at h
        have h2 : (some (Except.error ()) :
            Option (Except Unit (List (List Char)))) = some (.ok chunks) := h
        simp at h2
      | ok pr =>
        obtain ⟨chunk, s'⟩ := pr
        rw [hstep] at h
        refine ih s' (chunk :: acc) chunks ?_ h
        intro c hc
        rcases List.mem_cons.mp hc with rfl | hc
        · obtain ⟨e, hce, hchunk, _⟩ := chunkStep_inv hstep
          obtain ⟨hle, hdisj⟩ := chunkEnd_bound hce
          subst hchunk
          calc ((pyStrip (pySlice text start e)).length : Int)
              ≤ ((pySlice text start e).length : Int) := by
                exact_mod_cast pyStrip_length_le _
            _ ≤ e - start := pySlice_length_le _ _ _ (by omega)
            _ ≤ cs + 1 := by omega
        · exact hacc c hc
    · rw [chunkLoop_exit text cs ov _ start acc hlt] at h
      have heq : acc.reverse = chunks := by simpa using h
      intro ch hch
      rw [← heq] at hch
      exact hacc ch (List.mem_reverse.mp hch)

lemma chunkStep_no_punct (text : List Char) (cs ov start : Int)
    (hpunct : ∀ c ∈ text, isSentenceEnd c = false) (h0 : 0 ≤ start) :
    chunkStep text cs ov start =
      .ok (pyStrip (pySlice text start (start + cs)), start + cs - ov) := by
  have hce : chunkEnd text cs start = .ok (start + cs) := by
    unfold chunkEnd
    by_cases hend : start + cs < (text.length : Int)
    · rw [if_pos hend,
        findBoundaryGo_no_punct hpunct (fun i hi => by have := mem_pyRangeDown hi; omega)]
      rfl
    · rw [if_neg hend]
  exact chunkStep_eq_ok ov hce

/-- The general hard-cut computation behind the C2 scenario: on a text of
length 2400 with no sentence-terminal character, `chunk_text` with
`maxSize = 1000` and `overlap = 200` emits the trims of `text[0:1000]`,
`text[800:1800]` and `text[1600:2400]`. -/
lemma chunk_text_2400_no_punct (text : List Char) (hlen : text.length = 2400)
    (hpunct : ∀ c ∈ text, isSentenceEnd c = false) :
    chunk_text text 1000 200 =
      some (.ok [pyStrip (pySlice text 0 1000), pyStrip (pySlice text 800 1800),
                 pyStrip (pySlice text 1600 2400)]) := by
  have hL : (text.length : Int) = 2400 := by exact_mod_cast hlen
  have hs1 : chunkStep text 1000 200 0 =
      .ok (pyStrip (pySlice text 0 1000), 800) := by
    have := chunkStep_no_punct text 1000 200 0 hpunct (by norm_num)
    norm_num at this
    exact this
  have hs2 : chunkStep text 1000 200 800 =
      .ok (pyStrip (pySlice text 800 1800), 1600) := by
    have := chunkStep_no_punct text 1000 200 800 hpunct (by norm_num)
    norm_num at this
    exact this
  have hsl : pySlice text 1600 2600 = pySlice text 1600 2400 := by
    have hb : pyBound text.length 2600 = pyBound text.length 2400 := by
      unfold pyBound
      split_ifs <;> omega
    unfold pySlice
    rw [hb]
  have hs3 : chunkStep text 1000 200 1600 =
      .ok (pyStrip (pySlice text 1600 2400), 2400) := by
    have := chunkStep_no_punct text 1000 200 1600 hpunct (by norm_num)
    norm_num at this
    rw [hsl] at this
    exact this
  unfold chunk_text
  rw [hlen, if_neg (by norm_num)]
  rw [chunkLoop_advance text 1000 200 2400 0 [] (by omega) hs1]
  rw [show (2400 : Nat) = 2399 + 1 from by norm_num]
  rw [chunkLoop_advance text 1000 200 2399 800 _ (by omega) hs2]
  rw [show (2399 : Nat) = 2398 + 1 from by norm_num]
  rw [chunkLoop_advance text 1000 200 2398 1600 _ (by omega) hs3]
  rw [chunkLoop_exit text 1000 200 2398 2400 _ (by omega)]
  rfl

/-- One non-terminating step of the C1 counterexample: on the text
`"a.aaa"` with `maxSize = 3` and `overlap = 2`, the boundary snaps to just
after the period at index 1, so the next cursor is `2 - 2 = 0` again. -/
lemma c1cex_step : chunkStep ['a', '.', 'a', 'a', 'a'] 3 2 0 = .ok (['a', '.'], 0) := by
  decide

lemma c1cex_loop : ∀ (fuel : Nat) (acc : List (List Char)),
    chunkLoop ['a', '.', 'a', 'a', 'a'] 3 2 fuel 0 acc = none := by
  intro fuel
  induction fuel with
  | zero => intro acc; rw [chunkLoop_zero, if_pos (by decide)]
  | succ n ih =>
    intro acc
    rw [chunkLoop_advance _ _ _ _ _ _ (by decide) c1cex_step]
    exact ih _

/-- One non-terminating step of the C5 counterexample: with `maxSize = 0` the
boundary is the cursor itself, an empty chunk is cut, and with `overlap = 0`
the cursor never moves. -/
lemma cs0_step (text : List Char) (htext : text ≠ []) :
    chunkStep text 0 0 0 = .ok ([], 0) := by
  have hlen : 0 < (text.length : Int) := by
    have := List.length_pos.mpr htext
    omega
  have hce : chunkEnd text 0 0 = .ok 0 := by
    unfold chunkEnd
    rw [if_pos (by omega)]
    have hrange : pyRangeDown (0 + 0) (max (0 + 0 - 100) 0) = [] := by
      unfold pyRangeDown
      norm_num
    rw [hrange]
    rfl
  have := chunkStep_eq_ok 0 hce
  have hslice : pySlice text 0 0 = [] := by
    unfold pySlice pyBound
    norm_num
  rw [hslice] at this
  norm_num at this ⊢
  exact this

lemma cs0_loop (text : List Char) (htext : text ≠ []) :
    ∀ (fuel : Nat) (acc : List (List Char)),
      chunkLoop text 0 0 fuel 0 acc = none := by
  have hlen : (0 : Int) < (text.length : Int) := by
    have := List.length_pos.mpr htext
    omega
  intro fuel
  induction fuel with
  | zero => intro acc; rw [chunkLoop_zero, if_pos hlen]
  | succ n ih =>
    intro acc
    rw [chunkLoop_advance _ _ _ _ _ _ hlen (cs0_step text htext)]
    exact ih _

/-! ## A completed run never dips the cursor below zero

If a sentence-boundary snap makes the next cursor negative, the character that
caused the snap remains the highest sentence-terminal index of every later
scan window, so the cursor is pinned there and the loop never terminates.
Hence a run that does complete kept its cursor non-negative throughout, and on
whitespace-free text all its chunks are non-empty slices — for every valid
overlap, with no further restriction. -/

lemma pyRangeDown_eq_nil {a b : Int} (h : a ≤ b) : pyRangeDown a b = [] := by
  unfold pyRangeDown
  have h0 : (a - b).toNat = 0 := by omega
  rw [h0]
  rfl

lemma pyRangeDown_cons {a b : Int} (h : b < a) :
    pyRangeDown a b = a :: pyRangeDown (a - 1) b := by
  unfold pyRangeDown
  have h1 : (a - b).toNat = (a - 1 - b).toNat + 1 := by omega
  rw [h1, List.range_succ_eq_map, List.map_cons, List.map_map]
  congr 1
  · norm_num
  · exact List.map_congr_left (fun k _ => by
      simp only [Function.comp_apply]
      push_cast
      ring)

/-- If `p` lies in the window, holds a sentence-terminal character, and every
index of the window above `p` holds a non-terminal character, the backward
scan stops exactly at `p`. -/
lemma findBoundary_window (text : List Char) (lo p : Int) (c : Char)
    (hlo : lo < p) (hc : pyIdx text p = some c) (hterm : isSentenceEnd c = true) :
    ∀ (n : Nat) (hi : Int), (hi - p).toNat = n → p ≤ hi →
      (∀ j, p < j → j ≤ hi → ∃ cj, pyIdx text j = some cj ∧ isSentenceEnd cj = false) →
      findBoundaryGo text (pyRangeDown hi lo) = .ok (some (p + 1)) := by
  intro n
  induction n with
  | zero =>
    intro hi hn hple _
    have hip : hi = p := by omega
    subst hip
    rw [pyRangeDown_cons hlo]
    simp [findBoundaryGo, hc, hterm]
  | succ m ih =>
    intro hi hn hple habove
    have hpi : p < hi := by omega
    obtain ⟨cj, hcj, hcjf⟩ := habove hi hpi le_rfl
    rw [pyRangeDown_cons (by omega)]
    simp only [findBoundaryGo, hcj, hcjf, if_false, Bool.false_eq_true]
    exact ih (hi - 1) (by omega) (by omega) (fun j hj hj2 => habove j hj (by omega))

/-- Conversely, a successful scan stops at a sentence-terminal index `p` of the
window such that every window index above `p` is non-terminal. -/
lemma findBoundary_found_spec (text : List Char) :
    ∀ (n : Nat) (hi lo e : Int), (hi - lo).toNat = n →
      findBoundaryGo text (pyRangeDown hi lo) = .ok (some e) →
      ∃ p c, e = p + 1 ∧ lo < p ∧ p ≤ hi ∧ pyIdx text p = some c ∧
        isSentenceEnd c = true ∧
        ∀ j, p < j → j ≤ hi →
          ∃ cj, pyIdx text j = some cj ∧ isSentenceEnd cj = false := by
  intro n
  induction n with
  | zero =>
    intro hi lo e hn h
    rw [pyRangeDown_eq_nil (by omega)] at h
    simp [findBoundaryGo] at h
  | succ m ih =>
    intro hi lo e hn h
    have hlohi : lo < hi := by omega
    rw [pyRangeDown_cons hlohi] at h
    cases hidx : pyIdx text hi with
    | none => simp [findBoundaryGo, hidx] at h
    | some c =>
      by_cases hse : isSentenceEnd c
      · simp only [findBoundaryGo, hidx, hse, if_true, Except.ok.injEq,
          Option.some.injEq] at h
        refine ⟨hi, c, h.symm, hlohi, le_rfl, hidx, hse, ?_⟩
        intro j hj hj2
        exact absurd hj (by omega)
      · simp only [findBoundaryGo, hidx, hse, if_false, Bool.false_eq_true] at h
        obtain ⟨p, cp, he, hlop, hphi, hcp, hpterm, habove⟩ :=
          ih (hi - 1) lo e (by omega) h
        refine ⟨p, cp, he, hlop, by omega, hcp, hpterm, ?_⟩
        intro j hj hj2
        by_cases hjhi : j = hi
        · subst hjhi
          exact ⟨c, hidx, Bool.eq_false_iff.mpr hse⟩
        · exact habove j hj (by omega)

/-- At a pinned negative cursor the step re-snaps at the same terminal index
`p`, so the cursor does not move. -/
lemma chunkStep_pinned (text : List Char) (cs ov start p : Int) (c : Char)
    (hcsL : cs < (text.length : Int)) (hstart : start < 0)
    (hsp : start = p + 1 - ov) (hc : pyIdx text p = some c)
    (hterm : isSentenceEnd c = true)
    (hplo : max (start + cs - 100) start < p) (hple : p ≤ start + cs)
    (habove : ∀ j, p < j → j ≤ start + cs →
      ∃ cj, pyIdx text j = some cj ∧ isSentenceEnd cj = false) :
    chunkStep text cs ov start = .ok (pyStrip (pySlice text start (p + 1)), start) := by
  have hce : chunkEnd text cs start = .ok (p + 1) := by
    unfold chunkEnd
    rw [if_pos (by omega),
      findBoundary_window text (max (start + cs - 100) start) p c hplo hc hterm
        (start + cs - p).toNat (start + cs) rfl (by omega) habove]
    rfl
  have hres := chunkStep_eq_ok ov hce
  rw [show p + 1 - ov = start from by omega] at hres
  exact hres

/-- A pinned negative cursor never lets the loop terminate, whatever the
fuel. -/
lemma chunkLoop_pinned (text : List Char) (cs ov start p : Int) (c : Char)
    (hcsL : cs < (text.length : Int)) (hstart : start < 0)
    (hsp : start = p + 1 - ov) (hc : pyIdx text p = some c)
    (hterm : isSentenceEnd c = true)
    (hplo : max (start + cs - 100) start < p) (hple : p ≤ start + cs)
    (habove : ∀ j, p < j → j ≤ start + cs →
      ∃ cj, pyIdx text j = some cj ∧ isSentenceEnd cj = false) :
    ∀ (fuel : Nat) (acc : List (List Char)),
      chunkLoop text cs ov fuel start acc = none := by
  have hstep :=
    chunkStep_pinned text cs ov start p c hcsL hstart hsp hc hterm hplo hple habove
  have hlt : start < (text.length : Int) := by omega
  intro fuel
  induction fuel with
  | zero => intro acc; rw [chunkLoop_zero, if_pos hlt]
  | succ n ih =>
    intro acc
    rw [chunkLoop_advance _ _ _ _ _ _ hlt hstep]
    exact ih _

/-- A step from a non-negative cursor that lands on a negative cursor must
come from a boundary snap, and that snap pins the loop: no fuel completes it
from there. -/
lemma chunkLoop_none_of_neg (text : List Char) (cs ov start start' : Int)
    (chunk : List Char)
    (h0 : 0 ≤ start) (hovcs : ov < cs)
    (hstep : chunkStep text cs ov start = .ok (chunk, start')) (hneg : start' < 0) :
    ∀ (fuel : Nat) (acc : List (List Char)),
      chunkLoop text cs ov fuel start' acc = none := by
  obtain ⟨e, hce, hchunk, hse⟩ := chunkStep_inv hstep
  unfold chunkEnd at hce
  by_cases hend : start + cs < (text.length : Int)
  · rw [if_pos hend] at hce
    cases hfb : findBoundaryGo text
        (pyRangeDown (start + cs) (max (start + cs - 100) start)) with
    | error u =>
      rw [hfb] at hce
      simp [Except.map] at hce
    | ok o =>
      rw [hfb] at hce
      cases o with
      | none =>
        simp only [Except.map, Option.getD] at hce
        have he : e = start + cs := by
          simp only [Except.ok.injEq] at hce
          omega
        omega
      | some e2 =>
        simp only [Except.map, Option.getD] at hce
        have he2 : e2 = e := by
          simp only [Except.ok.injEq] at hce
          omega
        subst he2
        obtain ⟨p, c, hpe, hplo, hple, hc, hterm, habove⟩ :=
          findBoundary_found_spec text
            (start + cs - max (start + cs - 100) start).toNat (start + cs)
            (max (start + cs - 100) start) e2 rfl hfb
        apply chunkLoop_pinned text cs ov start' p c
        · omega
        · exact hneg
        · omega
        · exact hc
        · exact hterm
        · omega
        · omega
        · intro j hj hj2
          exact habove j hj (by omega)
  · rw [if_neg hend] at hce
    have he : e = start + cs := by injection hce with h2; omega
    omega

/-- In a run of the loop that completes, starting from a non-negative cursor,
every emitted chunk of a whitespace-free text is non-empty — for every valid
overlap: a snap to a negative cursor would pin the loop and the run would not
have completed. -/
lemma chunkLoop_completed_nonempty (text : List Char) (cs ov : Int)
    (hws : ∀ c ∈ text, pyIsSpace c = false)
    (hcs : 0 < cs) (hovcs : ov < cs) :
    ∀ (fuel : Nat) (start : Int) (acc chunks : List (List Char)), 0 ≤ start →
      (∀ c ∈ acc, c ≠ []) →
      chunkLoop text cs ov fuel start acc = some (.ok chunks) →
      ∀ ch ∈ chunks, ch ≠ [] := by
  intro fuel
  induction fuel with
  | zero =>
    intro start acc chunks h0 hacc h
    rw [chunkLoop_zero] at h
    by_cases hlt : start < (text.length : Int)
    · rw [if_pos hlt] at h
      exact Option.noConfusion h
    · rw [if_neg hlt] at h
      have heq : acc.reverse = chunks := by simpa using h
      intro ch hch
      rw [← heq] at hch
      exact hacc ch (List.mem_reverse.mp hch)
  | succ n ih =>
    intro start acc chunks h0 hacc h
    by_cases hlt : start < (text.length : Int)
    · rw [chunkLoop_succ, if_pos hlt] at h
      cases hstep : chunkStep text cs ov start with
      | error u =>
        rw [hstep] at h
        have h2 : (some (Except.error ()) :
            Option (Except Unit (List (List Char)))) = some (.ok chunks) := h
        simp at h2
      | ok pr =>
        obtain ⟨chunk, s'⟩ := pr
        rw [hstep] at h
        by_cases hs' : 0 ≤ s'
        · refine ih s' (chunk :: acc) chunks hs' ?_ h
          intro cc hcc
          rcases List.mem_cons.mp hcc with rfl | hcc
          · obtain ⟨e, hce, hchunk, _⟩ := chunkStep_inv hstep
            obtain ⟨hle, hdisj⟩ := chunkEnd_bound hce
            subst hchunk
            rw [pyStrip_eq_self (fun x hx => hws x (mem_of_mem_pySlice hx))]
            exact pySlice_ne_nil h0 hlt (by omega)
          · exact hacc cc hcc
        · have h2 : chunkLoop text cs ov n s' (chunk :: acc) =
              some (.ok chunks) := h
          rw [chunkLoop_none_of_neg text cs ov start s' chunk h0 hovcs hstep
            (by omega) n (chunk :: acc)] at h2
          exact Option.noConfusion h2
    · rw [chunkLoop_exit text cs ov _ start acc hlt] at h
      have heq : acc.reverse = chunks := by simpa using h
      intro ch hch
      rw [← heq] at hch
      exact hacc ch (List.mem_reverse.mp hch)

/-! ## Claims C1-C6: the chunk segmenter -/

/-- C1 (amended): the segmentation loop of chunk_text terminates whenever
maxSize > 0 and 0 ≤ overlap < maxSize with, in addition,
overlap = 0 or overlap + 98 < maxSize; the extra gap is needed because the
boundary may be snapped backward, shrinking the cursor advance below
maxSize − overlap. -/
theorem c1_chunk_text_termination (text : List Char) (cs ov : Int)
    (hcs : 0 < cs) (hov0 : 0 ≤ ov) (hovcs : ov < cs)
    (hgap : ov = 0 ∨ ov + 98 < cs) :
    chunkTextTerminates text cs ov := by
  by_cases hshort : (text.length : Int) ≤ cs
  · exact Or.inl hshort
  · refine Or.inr ⟨text.length + 1, ?_⟩
    obtain ⟨chunks, hch, _⟩ := chunkLoop_ok_forall text cs ov (fun _ => True) hcs hov0 hovcs
      hgap (fun _ _ _ _ _ _ => trivial) (text.length + 1) 0 [] le_rfl
      (by push_cast; omega) (by simp)
    rw [hch]
    rfl

/-- Witness for C1: a terminating run at a concrete valid configuration. -/
theorem c1_chunk_text_termination_witness :
    chunkTextTerminates ['a', 'b', 'c', 'd'] 3 0 :=
  c1_chunk_text_termination ['a', 'b', 'c', 'd'] 3 0 (by norm_num) (by norm_num)
    (by norm_num) (Or.inl rfl)

/-- C1 counterexample: with the valid configuration maxSize = 3,
overlap = 2 (so 0 ≤ overlap < maxSize) the loop never terminates on the
5-character text "a.aaa": the boundary snaps to just after the period at
index 1 and the cursor stays at 0 forever. -/
theorem c1_chunk_text_termination_counterexample :
    ¬ chunkTextTerminates ['a', '.', 'a', 'a', 'a'] 3 2 := by
  intro h
  rcases h with h | ⟨fuel, hf⟩
  · revert h; decide
  · rw [c1cex_loop fuel []] at hf
    simp at hf

/-- C2 (amended): on a 2400-character text with no sentence punctuation and
maxSize = 1000, overlap = 200, chunk_text emits exactly 3 chunks, the trims of
text[0:1000], text[800:1800] and text[1600:2400]: chunk 2 starts at character
800, chunk 3 starts at character 1600 (not 1800) and has raw length 800 (not
600), because the third cursor is 1800 − 200 = 1600. -/
theorem c2_hard_cut_scenario (text : List Char) (hlen : text.length = 2400)
    (hpunct : ∀ c ∈ text, isSentenceEnd c = false) :
    chunk_text text 1000 200 =
      some (.ok [pyStrip (pySlice text 0 1000), pyStrip (pySlice text 800 1800),
                 pyStrip (pySlice text 1600 2400)]) :=
  chunk_text_2400_no_punct text hlen hpunct

/-- Witness for C2: the scenario evaluated on 2400 letters. -/
theorem c2_hard_cut_scenario_witness :
    chunk_text (List.replicate 2400 'a') 1000 200 =
      some (.ok [pyStrip (pySlice (List.replicate 2400 'a') 0 1000),
                 pyStrip (pySlice (List.replicate 2400 'a') 800 1800),
                 pyStrip (pySlice (List.replicate 2400 'a') 1600 2400)]) :=
  c2_hard_cut_scenario (List.replicate 2400 'a') (List.length_replicate 2400 'a')
    (fun c hc => by rw [List.eq_of_mem_replicate hc]; rfl)

/-- C2 counterexample: on 2400 letters the three chunks have lengths
[1000, 1000, 800], not [1000, 1000, 600]; the third chunk starts at 1600. -/
theorem c2_hard_cut_scenario_counterexample :
    (chunk_text (List.replicate 2400 'a') 1000 200).map
        (Except.map (List.map List.length)) =
      some (.ok [1000, 1000, 800]) ∧ (800 : Nat) ≠ 600 := by
  constructor
  · rw [chunk_text_2400_no_punct (List.replicate 2400 'a') (List.length_replicate 2400 'a')
      (fun c hc => by rw [List.eq_of_mem_replicate hc]; rfl)]
    have h1 : ∀ a b : Int, 0 ≤ a → a ≤ b → b ≤ 2400 →
        pySlice (List.replicate 2400 'a') a b = List.replicate (b - a).toNat 'a' := by
      intro a b ha hab hb
      unfold pySlice pyBound
      rw [List.length_replicate]
      rw [if_neg (by omega), if_neg (by omega)]
      rw [List.take_replicate, List.drop_replicate]
      congr 1
      omega
    have h2 : ∀ n : Nat, pyStrip (List.replicate n 'a') = List.replicate n 'a' :=
      fun n => pyStrip_eq_self (fun c hc => by rw [List.eq_of_mem_replicate hc]; rfl)
    rw [h1 0 1000 (by norm_num) (by norm_num) (by norm_num),
        h1 800 1800 (by norm_num) (by norm_num) (by norm_num),
        h1 1600 2400 (by norm_num) (by norm_num) (by norm_num)]
    rw [h2, h2, h2]
    simp only [Option.map_some', Except.map, List.map_cons, List.map_nil,
      List.length_replicate]
    decide
  · norm_num

/-- C4 (amended): for every configuration with maxSize > 0 and
0 ≤ overlap < maxSize, every chunk of a completed chunk_text run on a
non-empty text containing no whitespace is non-empty; only the whitespace
restriction is needed, because a whitespace-only span is trimmed to an empty
chunk, while a run whose cursor dips below zero provably never completes. -/
theorem c4_chunk_nonempty (text : List Char) (cs ov : Int)
    (htext : text ≠ []) (hws : ∀ c ∈ text, pyIsSpace c = false)
    (hcs : 0 < cs) (hov0 : 0 ≤ ov) (hovcs : ov < cs) :
    ∀ chunks, chunk_text text cs ov = some (.ok chunks) → ∀ ch ∈ chunks, ch ≠ [] := by
  intro chunks hck ch hch
  unfold chunk_text at hck
  by_cases hshort : (text.length : Int) ≤ cs
  · rw [if_pos hshort] at hck
    have heq : [text] = chunks := by simpa using hck
    rw [← heq] at hch
    simp at hch
    rw [hch]
    exact htext
  · rw [if_neg hshort] at hck
    exact chunkLoop_completed_nonempty text cs ov hws hcs hovcs _ 0 [] chunks
      le_rfl (by simp) hck ch hch

/-- Witness for C4: all chunks of a concrete whitespace-free run are
non-empty. -/
theorem c4_chunk_nonempty_witness : (['a', 'b', 'c'] : List Char) ≠ [] :=
  c4_chunk_nonempty ['a', 'b', 'c', 'd'] 3 0 (by decide) (by decide) (by decide)
    (by decide) (by decide) [['a', 'b', 'c'], ['d']] (by decide)
    ['a', 'b', 'c'] (by decide)

/-- C4 counterexample: on five spaces with the valid configuration
maxSize = 3, overlap = 0, chunk_text returns two chunks that are both empty
after trimming. -/
theorem c4_chunk_nonempty_counterexample :
    chunk_text [' ', ' ', ' ', ' ', ' '] 3 0 = some (.ok [[], []]) := by
  decide

/-- C5 (amended): chunk_text performs no parameter validation and raises no
InvalidConfiguration error; with the malformed configuration maxSize = 0,
overlap = 0 (maxSize non-positive and overlap ≥ maxSize) and any non-empty
text, the call simply never returns: the loop cuts an empty chunk at the
cursor and the cursor never advances. -/
theorem c5_no_validation (text : List Char) (htext : text ≠ []) :
    ¬ chunkTextTerminates text 0 0 := by
  intro h
  rcases h with h | ⟨fuel, hf⟩
  · have := List.length_pos.mpr htext
    omega
  · rw [cs0_loop text htext fuel []] at hf
    simp at hf

/-- Witness for C5: divergence on a concrete one-character text. -/
theorem c5_no_validation_witness : ¬ chunkTextTerminates ['a'] 0 0 :=
  c5_no_validation ['a'] (by decide)

/-- C5 counterexample: at the malformed configuration maxSize = 0,
overlap = 0 on the text "b", chunk_text does not fail fast with an error —
it never returns at all (no fuel completes the loop), so no
InvalidConfiguration error is ever produced. -/
theorem c5_no_validation_counterexample : ¬ chunkTextTerminates ['b'] 0 0 := by
  intro h
  rcases h with h | ⟨fuel, hf⟩
  · revert h; decide
  · rw [cs0_loop ['b'] (by decide) fuel []] at hf
    simp at hf

/-- C6 (amended): for every configuration with maxSize > 0, every chunk of a
completed chunk_text run has length at most maxSize + 1 — not maxSize: the
backward scan starts at index start + maxSize itself, so a boundary snap can
extend a chunk by one character past maxSize. -/
theorem c6_chunk_size_bound (text : List Char) (cs ov : Int) (hcs : 0 < cs) :
    ∀ chunks, chunk_text text cs ov = some (.ok chunks) →
      ∀ ch ∈ chunks, (ch.length : Int) ≤ cs + 1 := by
  intro chunks hck ch hch
  unfold chunk_text at hck
  by_cases hshort : (text.length : Int) ≤ cs
  · rw [if_pos hshort] at hck
    have heq : [text] = chunks := by simpa using hck
    rw [← heq] at hch
    simp at hch
    rw [hch]
    omega
  · rw [if_neg hshort] at hck
    exact chunkLoop_length_bound text cs ov hcs _ 0 [] chunks (by simp) hck ch hch

/-- Witness for C6: a concrete run whose chunks respect the maxSize + 1
bound. -/
theorem c6_chunk_size_bound_witness : (((['a'] : List Char).length : Int)) ≤ 1 + 1 :=
  c6_chunk_size_bound ['a', 'a'] 1 0 (by norm_num) [['a'], ['a']] (by decide)
    ['a'] (by decide)

/-- C6 counterexample: with maxSize = 5, overlap = 0 on the text "aaaaa.b",
the boundary snaps to just after the period at index 5 = start + maxSize,
producing a first chunk of length 6 > 5. -/
theorem c6_chunk_size_bound_counterexample :
    (chunk_text ['a', 'a', 'a', 'a', 'a', '.', 'b'] 5 0).map
        (Except.map (List.map List.length)) =
      some (.ok [6, 1]) ∧ ¬ ((6 : Nat) ≤ 5) := by
  constructor
  · decide
  · decide

/-! ## Claim C3: table atomicity of the chunking pipeline -/

/-- C3 (amended): an item whose label is exactly the string "table" and whose
text is not whitespace-only yields exactly one chunk record, whole and
unsplit, regardless of its length and of the configuration; the pipeline
compares only against the literal "table", so the other member of
TABLE_CONTENT_TYPES, "document_index", is not protected and is split like
ordinary text. -/
theorem c3_table_atomicity (cs ov : Int) (source : String) (cid : Nat)
    (item : ContentItem) (hlabel : item.label = "table")
    (hne : (pyStrip item.text).isEmpty = false) :
    processItem cs ov source cid item =
      some (.ok ([{ chunk_id := cid + 1, text := pyStrip item.text, source := source,
                    content_type := "table", page := item.page, chunk_index := 0,
                    total_chunks := 1, isPartial := false }], cid + 1)) := by
  have hne0 : item.text.isEmpty = false := by
    cases htext : item.text with
    | nil =>
      rw [htext] at hne
      simp [pyStrip] at hne
    | cons a l => rfl
  unfold processItem
  rw [hne0, hne, hlabel]
  simp

/-- Witness for C3: a 7-character table item with maxSize 5 still yields one
whole chunk. -/
theorem c3_table_atomicity_witness :
    processItem 5 0 "doc.pdf" 0 ⟨List.replicate 7 'a', "table", none⟩ =
      some (.ok ([{ chunk_id := 1, text := pyStrip (List.replicate 7 'a'),
                    source := "doc.pdf", content_type := "table", page := none,
                    chunk_index := 0, total_chunks := 1, isPartial := false }], 1)) :=
  c3_table_atomicity 5 0 "doc.pdf" 0 ⟨List.replicate 7 'a', "table", none⟩ rfl
    (by decide)

/-- C3 counterexample: a 12-character item of type "document_index" — a member
of TABLE_CONTENT_TYPES — is split into 3 chunks by the pipeline with
maxSize 5, overlap 0, not kept as one chunk. -/
theorem c3_table_atomicity_counterexample :
    recCount (processItem 5 0 "doc.pdf" 0
        ⟨List.replicate 12 'a', "document_index", none⟩) = some 3 ∧
      (3 : Nat) ≠ 1 := by
  constructor
  · decide
  · decide

/-! ## Claim C7: batched ingestion error handling -/

lemma ingestLoop_spec (pairs : List (String × String)) (bs : Nat)
    (fails : Nat → Bool) :
    ∀ (i : Nat) (st : IngestState),
      ingestLoop pairs bs fails i st =
        { collection := st.collection ++
            (((batchStartsFrom pairs.length bs i).filter (fun j => !fails j)).map
              (fun j => (pairs.drop j).take (min (j + bs) pairs.length - j))).flatten,
          errorBatches := st.errorBatches ++
            ((batchStartsFrom pairs.length bs i).filter (fun j => fails j)).map
              (fun j => j / bs + 1),
          attempts := st.attempts ++ batchStartsFrom pairs.length bs i } := by
  have H : ∀ (k i : Nat) (st : IngestState), pairs.length - i ≤ k →
      ingestLoop pairs bs fails i st =
        { collection := st.collection ++
            (((batchStartsFrom pairs.length bs i).filter (fun j => !fails j)).map
              (fun j => (pairs.drop j).take (min (j + bs) pairs.length - j))).flatten,
          errorBatches := st.errorBatches ++
            ((batchStartsFrom pairs.length bs i).filter (fun j => fails j)).map
              (fun j => j / bs + 1),
          attempts := st.attempts ++ batchStartsFrom pairs.length bs i } := by
    intro k
    induction k with
    | zero =>
      intro i st hk
      have hni : ¬ (i < pairs.length ∧ 0 < bs) := by omega
      rw [ingestLoop, dif_neg hni, batchStartsFrom, dif_neg hni]
      simp
    | succ n ihn =>
      intro i st hk
      by_cases hc : i < pairs.length ∧ 0 < bs
      · rw [ingestLoop, dif_pos hc, batchStartsFrom, dif_pos hc]
        rw [ihn (i + bs) _ (by omega)]
        by_cases hf : fails i
        · simp [hf, List.append_assoc]
        · simp [hf, List.append_assoc]
      · rw [ingestLoop, dif_neg hc, batchStartsFrom, dif_neg hc]
        simp
  exact fun i st => H (pairs.length - i) i st le_rfl

/-- C7 (amended): the batch loop attempts every batch start 0, bs, 2bs, ...
exactly once and in order, regardless of earlier failures; a failing batch
contributes no documents and is recorded in the error log (no retry, no
rollback, no abort); the collection receives exactly the concatenation of
the successful batches.  No aggregated count of skipped batches is computed
or returned: the figure reported at the end of the run is the collection's
document count. -/
theorem c7_batch_error_handling (pairs : List (String × String)) (bs : Nat)
    (fails : Nat → Bool) (st : IngestState) :
    ingestLoop pairs bs fails 0 st =
      { collection := st.collection ++
          (((batchStartsFrom pairs.length bs 0).filter (fun j => !fails j)).map
            (fun j => (pairs.drop j).take (min (j + bs) pairs.length - j))).flatten,
        errorBatches := st.errorBatches ++
          ((batchStartsFrom pairs.length bs 0).filter (fun j => fails j)).map
            (fun j => j / bs + 1),
        attempts := st.attempts ++ batchStartsFrom pairs.length bs 0 } :=
  ingestLoop_spec pairs bs fails 0 st

/-- Witness for C7: three documents in batches of two, with the first batch
failing: the failure is logged as batch number 1 and skipped, the second
batch is still ingested. -/
theorem c7_batch_error_handling_witness :
    ingestLoop [("a", "x"), ("b", "y"), ("c", "z")] 2 (fun j => decide (j = 0)) 0
        ⟨[], [], []⟩ =
      ⟨[("c", "z")], [1], [0, 2]⟩ := by
  rw [c7_batch_error_handling]
  simp [batchStartsFrom]

/-- C7 counterexample: in a run of five documents with batch size 2 in which
exactly one of the three batches fails, the number reported at the end of the
run is the collection's document count 3, which is not the count 1 of skipped
batches — no skipped-batch count is aggregated or reported to the caller. -/
theorem c7_batch_error_handling_counterexample :
    finalReport (ingestLoop [("a", "v"), ("b", "w"), ("c", "x"), ("d", "y"), ("e", "z")]
        2 (fun j => decide (j = 2)) 0 ⟨[], [], []⟩) = 3 ∧
    (ingestLoop [("a", "v"), ("b", "w"), ("c", "x"), ("d", "y"), ("e", "z")]
        2 (fun j => decide (j = 2)) 0 ⟨[], [], []⟩).errorBatches.length = 1 ∧
    (3 : Nat) ≠ 1 := by
  refine ⟨?_, ?_, by norm_num⟩ <;>
    · rw [ingestLoop_spec]
      simp [batchStartsFrom, finalReport]

/-! ## Claim C8: topK clamping in similarity search -/

/-- C8: similarity_search asks the Vector Index Service for
min(n_results, MAX_RESULTS) results instead of rejecting the request, and
whenever the service returns at most the requested number of results, every
search — in particular one requesting 10000 results — returns at most
MAX_RESULTS = 50 results. -/
theorem c8_topk_clamp {α : Type} (service : Int → List α) (n_results : Int)
    (hsvc : ∀ k : Int, ((service k).length : Int) ≤ max k 0) :
    similarity_search service n_results = service (min n_results MAX_RESULTS) ∧
    ((similarity_search service n_results).length : Int) ≤ 50 := by
  refine ⟨rfl, ?_⟩
  have h := hsvc (min n_results MAX_RESULTS)
  unfold similarity_search MAX_RESULTS at h ⊢
  omega

/-- Witness for C8: a service that returns exactly as many results as
requested, queried with topK = 10000, yields at most 50 results. -/
theorem c8_topk_clamp_witness :
    ((similarity_search (fun k : Int => List.replicate k.toNat (0 : Nat))
        10000).length : Int) ≤ 50 :=
  (c8_topk_clamp (fun k : Int => List.replicate k.toNat (0 : Nat)) 10000
    (fun k => by simp only [List.length_replicate]; omega)).2

/-! ## Claim C9: page-range filter construction -/

/-- C9: the filter built by search_by_page_range matches a chunk with page p
iff p is at least the given lower bound (when present) and at most the given
upper bound (when present): both bounds yield the conjunction of the two
inclusive comparisons, one bound yields the single-sided comparison, and
absent bounds yield the empty filter that matches everything — no Range
predicate with no bounds is ever constructed. -/
theorem c9_page_range_filter (pmin pmax : Option Int) (p : Int) :
    matchesPage (search_by_page_range_filter pmin pmax) p =
      ((pmin.all fun mn => decide (mn ≤ p)) &&
        (pmax.all fun mx => decide (p ≤ mx))) ∧
    search_by_page_range_filter none none = WhereFilter.empty := by
  refine ⟨?_, rfl⟩
  cases pmin <;> cases pmax <;>
    simp [search_by_page_range_filter, matchesPage, matchesAll, Option.all]

/-! ## Claim C10: content-type filtering in prepare_chunk_data -/

lemma guard1_eq (inc : Option (List String)) (ct : String) :
    (pyTruthySet inc && !((inc.getD []).contains ct)) = !incPass inc ct := by
  cases inc with
  | none => rfl
  | some l => simp [pyTruthySet, incPass, Bool.not_or]

lemma guard2_eq (exc : Option (List String)) (ct : String) :
    (pyTruthySet exc && (exc.getD []).contains ct) = !excPass exc ct := by
  cases exc with
  | none => rfl
  | some l =>
    cases l with
    | nil => simp [pyTruthySet, excPass]
    | cons a t => simp [pyTruthySet, excPass]

/-- C10: prepare_chunk_data keeps exactly the chunks passing both type
filters — include_types absent or member, with an empty include set keeping
everything, and exclude_types absent or non-member — and returns the three
lists ids, documents and metadatas as parallel images of the kept chunks in
input order, hence of equal length. -/
theorem c10_prepare_chunk_filter (chunks : List RagChunk)
    (inc exc : Option (List String)) :
    prepare_chunk_data chunks inc exc =
      ((chunks.filter fun c => keepChunkClaim inc exc c.content_type).map mkChunkId,
       (chunks.filter fun c => keepChunkClaim inc exc c.content_type).map
         (fun c => c.text),
       (chunks.filter fun c => keepChunkClaim inc exc c.content_type).map mkMeta) := by
  induction chunks with
  | nil => rfl
  | cons c rest ih =>
    simp only [prepare_chunk_data, guard1_eq, guard2_eq]
    cases hA : incPass inc c.content_type with
    | false =>
      have hk : keepChunkClaim inc exc c.content_type = false := by
        simp [keepChunkClaim, hA]
      simp only [Bool.not_false, if_true]
      rw [ih]
      simp [List.filter_cons, hk]
    | true =>
      cases hB : excPass exc c.content_type with
      | false =>
        have hk : keepChunkClaim inc exc c.content_type = false := by
          simp [keepChunkClaim, hA, hB]
        simp only [Bool.not_true, Bool.not_false, if_false, if_true]
        rw [ih]
        simp [List.filter_cons, hk]
      | true =>
        have hk : keepChunkClaim inc exc c.content_type = true := by
          simp [keepChunkClaim, hA, hB]
        simp only [Bool.not_true, if_false]
        rw [ih]
        simp [List.filter_cons, hk]

end DoclingRag
